import Mathlib

/-!
Verification development for the day-planner repository.

The repository ships a web cabinet (two variants of `app.js`, found in
`src/unnamed/part_000`) that renders a week of tasks and issues task
mutations (PATCH payloads) to a backend, plus READMEs describing the
backend scheduling engine (anchors, autoplan, workout travel buffer).
The backend engine itself (Python) is not part of the available sources,
so the engine-level operations (`ensureAnchors`, the placement commit,
`findSlot`) are modelled from the specification; all client-side logic
(`getTaskDurationMinutes`, `startOfWeek`, `parseLocalDateTime`,
`toLocalIsoString`, `formatDateInput`, the mutation payload builders,
the priority cycle) is translated directly from the JavaScript source.
-/

namespace DayPlanner

/-! ### Duration rule (`getTaskDurationMinutes`, part_000 lines 201-209)

`planned_start` / `planned_end` are ISO strings in the UI; the function
immediately converts them with `new Date(...)` and works with epoch
milliseconds, so they are modelled here as optional epoch-millisecond
integers (`none` = field absent or null). `estimate_minutes` is an
optional integer; JS falsiness of `0` is modelled explicitly. -/

structure DurTask where
  planned_start : Option Int
  planned_end : Option Int
  estimate_minutes : Option Int

/-- JS `Math.round((end - start) / 60000)` for integer millisecond
difference `x`: `Math.round(y)` is `⌊y + 1/2⌋`, hence
`⌊(x + 30000) / 60000⌋` with floor division. -/
def jsRoundDiv60000 (x : Int) : Int := Int.fdiv (x + 30000) 60000

/-- JS `task.estimate_minutes || 30`: `0`, `null` and `undefined` are
falsy and yield the default `30`. -/
def estimateOr30 (t : DurTask) : Int :=
  match t.estimate_minutes with
  | some v => if v = 0 then 30 else v
  | none => 30

/-- Translation of `getTaskDurationMinutes` (part_000 lines 201-209):
when both planned fields are set, take the rounded minute difference if
it is positive, otherwise fall back to `estimate_minutes || 30`. -/
def getTaskDurationMinutes (t : DurTask) : Int :=
  match t.planned_start, t.planned_end with
  | some s, some e =>
    let diff := jsRoundDiv60000 (e - s)
    if diff > 0 then diff else estimateOr30 t
  | _, _ => estimateOr30 t

/-- The duration rule exactly as the claim words it: the difference
`planned_end - planned_start` rounded to whole minutes when both fields
are set and that (rounded) difference is positive; otherwise
`estimate_minutes` when present and non-zero; otherwise 30 minutes. -/
def claimedDurationMinutes (t : DurTask) : Int :=
  let fallback : Int :=
    match t.estimate_minutes with
    | some v => if v ≠ 0 then v else 30
    | none => 30
  match t.planned_start, t.planned_end with
  | some s, some e =>
    if 0 < jsRoundDiv60000 (e - s) then jsRoundDiv60000 (e - s) else fallback
  | _, _ => fallback

/-! ### Priority cycle (`createPriorityElement`, part_000 lines 379-395) -/

/-- JS `task.priority || 2` (`0`, `null`, `undefined` are falsy). -/
def currentPriority (p : Option Int) : Int :=
  match p with
  | none => 2
  | some v => if v = 0 then 2 else v

/-- The click handler of the priority pill:
`const next = current >= 3 ? 1 : current + 1`. -/
def nextPriority (p : Option Int) : Int :=
  let current := currentPriority p
  if current ≥ 3 then 1 else current + 1

/-! ### Client mutation payloads (PATCH bodies built in part_000)

Both variants of `app.js` mutate tasks through `patchTask(task.id, {...})`.
Each call site builds a JSON object; a field of type `Option (Option α)`
distinguishes key-absent (`none`), key-present-null (`some none`) and
key-present-value (`some (some v)`). The timestamp type `α` stands for
the serialized `toLocalIsoString` value computed by the handler. -/

inductive ScheduleSource where
  | manual
  | autoplan
deriving DecidableEq

structure PatchPayload (α : Type) where
  planned_start : Option (Option α) := none
  planned_end : Option (Option α) := none
  schedule_source : Option ScheduleSource := none
  title : Option String := none
  notes : Option (Option String) := none
  priority : Option Int := none
  is_done : Option Bool := none

/-- `handleMove` (part_000 lines 883-909): sends the parsed start, the
start plus duration, and `schedule_source: 'manual'`. -/
def movePayload {α : Type} (start stop : α) : PatchPayload α :=
  { planned_start := some (some start), planned_end := some (some stop),
    schedule_source := some ScheduleSource.manual }

/-- `handleDropOnDay` (part_000 lines 311-339). -/
def dropOnDayPayload {α : Type} (start stop : α) : PatchPayload α :=
  { planned_start := some (some start), planned_end := some (some stop),
    schedule_source := some ScheduleSource.manual }

/-- `handleDropOnSlot` (part_000 lines 341-358). -/
def dropOnSlotPayload {α : Type} (start stop : α) : PatchPayload α :=
  { planned_start := some (some start), planned_end := some (some stop),
    schedule_source := some ScheduleSource.manual }

/-- `startTimeEdit` finalize (part_000 lines 495-543). -/
def timeEditPayload {α : Type} (start stop : α) : PatchPayload α :=
  { planned_start := some (some start), planned_end := some (some stop),
    schedule_source := some ScheduleSource.manual }

/-- `handleDropOnTask` (second variant, part_000 lines 1413-1455): both
the swap patches and the simple move patch have this shape. -/
def dropOnTaskPayload {α : Type} (start stop : α) : PatchPayload α :=
  { planned_start := some (some start), planned_end := some (some stop),
    schedule_source := some ScheduleSource.manual }

/-- `handleUnschedule` (part_000 lines 872-881) and `handleDropOnBacklog`
(lines 360-369): `{ planned_start: null, planned_end: null,
schedule_source: 'manual' }`. -/
def unschedulePayload {α : Type} : PatchPayload α :=
  { planned_start := some none, planned_end := some none,
    schedule_source := some ScheduleSource.manual }

/-- `startTitleEdit` finalize (part_000 lines 459-493). -/
def titleEditPayload {α : Type} (t : String) : PatchPayload α := { title := some t }

/-- `startNotesEdit` finalize (part_000 lines 545-580). -/
def notesEditPayload {α : Type} (n : Option String) : PatchPayload α := { notes := some n }

/-- `handleMarkDone` (part_000 lines 844-855). -/
def markDonePayload {α : Type} (b : Bool) : PatchPayload α := { is_done := some b }

/-- Priority pill click (part_000 lines 379-395). -/
def priorityPayload {α : Type} (p : Int) : PatchPayload α := { priority := some p }

/-- Every `patchTask` call site in both variants of `app.js`, carrying
the values the handler computed for the body. -/
inductive ClientMutation (α : Type) where
  | dropOnDay (start stop : α)
  | dropOnSlot (start stop : α)
  | dropOnBacklog
  | timeEdit (start stop : α)
  | move (start stop : α)
  | unschedule
  | titleEdit (t : String)
  | notesEdit (n : Option String)
  | markDone (b : Bool)
  | priorityCycle (p : Int)
  | dropOnTaskMove (start stop : α)
  | dropOnTaskSwapDragged (start stop : α)
  | dropOnTaskSwapTarget (start stop : α)

def payloadOf {α : Type} : ClientMutation α → PatchPayload α
  | .dropOnDay s e => dropOnDayPayload s e
  | .dropOnSlot s e => dropOnSlotPayload s e
  | .dropOnBacklog => unschedulePayload
  | .timeEdit s e => timeEditPayload s e
  | .move s e => movePayload s e
  | .unschedule => unschedulePayload
  | .titleEdit t => titleEditPayload t
  | .notesEdit n => notesEditPayload n
  | .markDone b => markDonePayload b
  | .priorityCycle p => priorityPayload p
  | .dropOnTaskMove s e => dropOnTaskPayload s e
  | .dropOnTaskSwapDragged s e => dropOnTaskPayload s e
  | .dropOnTaskSwapTarget s e => dropOnTaskPayload s e

/-- A payload touches the placement fields when it carries at least one
of the pair. -/
def touchesPlacement {α : Type} (p : PatchPayload α) : Prop :=
  p.planned_start ≠ none ∨ p.planned_end ≠ none

/-- Both placement keys present, either both timestamps or both null. -/
def placementPaired {α : Type} (p : PatchPayload α) : Prop :=
  (∃ s e, p.planned_start = some (some s) ∧ p.planned_end = some (some e)) ∨
  (p.planned_start = some none ∧ p.planned_end = some none)

/-- Placement pair with `schedule_source: 'manual'`. -/
def manualPlacement {α : Type} (p : PatchPayload α) : Prop :=
  p.schedule_source = some ScheduleSource.manual ∧
  ∃ s e, p.planned_start = some (some s) ∧ p.planned_end = some (some e)

/-! ### Unschedule gating (`setActionButtonsEnabled`, part_000 lines 127-136) -/

structure UITask (α : Type) where
  planned_start : Option α

/-- `unscheduleTaskButton.disabled = !task || !task.planned_start`, and
unconditionally disabled when the panel itself is disabled. -/
def unscheduleDisabled {α : Type} (enabled : Bool) (task : Option (UITask α)) : Bool :=
  match enabled, task with
  | false, _ => true
  | true, none => true
  | true, some t => t.planned_start.isNone

/-! ### `startOfWeek` (part_000 lines 229-236)

The function mutates a copy of its argument with `setHours(0,0,0,0)`,
`getDay()` and `setDate(getDate() - diff)`. A JS `Date` is modelled by
its local wall-clock reading: `days` is the number of local calendar
days since 1970-01-01 (which was a Thursday, so `getDay` of epoch day 0
is 4), `ms` the milliseconds elapsed since local midnight. In this
representation `setHours(0,0,0,0)` zeroes `ms` and
`setDate(getDate() - diff)` subtracts `diff` calendar days (JS
normalizes day-of-month rollover, which is exactly day subtraction). -/

structure LocalInstant where
  days : Int
  ms : Int
deriving DecidableEq

/-- JS `getDay()`: 0 = Sunday … 6 = Saturday; epoch day 0 was Thursday. -/
def getDay (d : LocalInstant) : Int := (d.days + 4) % 7

def startOfWeek (d : LocalInstant) : LocalInstant :=
  let zeroed : LocalInstant := { days := d.days, ms := 0 }
  let day := getDay zeroed
  let diff := (day + 6) % 7
  { days := zeroed.days - diff, ms := zeroed.ms }

/-! ### Date/time strings (part_000 lines 190-227)

JS strings are modelled as lists of characters. -/

abbrev JStr := List Char

/-- `value.split(sep)` for a one-character separator. -/
def splitChar (sep : Char) : JStr → List JStr
  | [] => [[]]
  | c :: rest =>
    if c = sep then [] :: splitChar sep rest
    else
      match splitChar sep rest with
      | [] => [[c]]
      | h :: t => (c :: h) :: t

def digitVal (c : Char) : Nat := c.toNat - 48

/-- Decimal value of a digit string, most significant digit first. -/
def charsVal (s : JStr) : Nat := s.foldl (fun acc c => acc * 10 + digitVal c) 0

def isDigits (s : JStr) : Bool := s.all Char.isDigit

/-- Modelled JS `Number(x)` as applied to the components split out of the
date/time input values: a missing component (`undefined`) is `none`,
digit-only components evaluate to their decimal value, the empty string
to `0`, and any other component — which a well-formed date/time input
never produces — to NaN, also modelled `none`. -/
def jsNumber : Option JStr → Option Int
  | none => none
  | some s =>
    if s.isEmpty then some 0
    else if isDigits s then some ((charsVal s : Nat) : Int) else none

/-- Decimal printing of a natural number (JS `String(n)` for `n ≥ 0`),
with structural fuel so that concrete values reduce in the kernel; the
fuel `n` always suffices because each step divides by 10. -/
def natToCharsFuel : Nat → Nat → JStr
  | 0, n => [Nat.digitChar n]
  | fuel + 1, n =>
    if n < 10 then [Nat.digitChar n]
    else natToCharsFuel fuel (n / 10) ++ [Nat.digitChar (n % 10)]

def natToChars (n : Nat) : JStr := natToCharsFuel n n

/-- JS number-to-string for the integers fed to the formatters. -/
def intToChars (i : Int) : JStr :=
  if i < 0 then '-' :: natToChars i.natAbs else natToChars i.toNat

/-- JS `String(n).padStart(k, '0')`. -/
def padZero (k : Nat) (s : JStr) : JStr := List.replicate (k - s.length) '0' ++ s

/-- A JS `Date` viewed through the civil-field getters the cabinet uses
(`getFullYear`, `getMonth`, `getDate`, `getHours`, `getMinutes`),
reading local wall-clock time. -/
structure LocalDate where
  year : Int
  month0 : Int
  day : Int
  hour : Int
  minute : Int
deriving DecidableEq

/-- The two-digit-year rule of the JS `Date(year, ...)` constructor:
integer years 0..99 mean 1900 + year. -/
def adjustYear (y : Int) : Int := if 0 ≤ y ∧ y ≤ 99 then 1900 + y else y

/-- `new Date(year, month, day, hour, minute, 0, 0)`. The constructor
applies the two-digit-year rule and then normalizes out-of-range fields
by calendar rollover; the rollover is not modelled here — every
statement below restricts the fields to the rollover-free range (month
0..11, day 1..daysInMonth, hour 0..23, minute 0..59), on which the
constructor stores the fields unchanged. -/
def newLocalDate (y m0 d h mi : Int) : LocalDate :=
  { year := adjustYear y, month0 := m0, day := d, hour := h, minute := mi }

/-- `parseLocalDateTime` (part_000 lines 211-218). `none` models JS
`null`; a time value missing its minute component makes the JS code
build an unusable Invalid Date, which is also modelled as `none`. -/
def parseLocalDateTime (dateValue timeValue : JStr) : Option LocalDate :=
  if dateValue.isEmpty || timeValue.isEmpty then none
  else
    let dparts := splitChar '-' dateValue
    let tparts := splitChar ':' timeValue
    let year := jsNumber dparts[0]?
    let month := jsNumber dparts[1]?
    let day := jsNumber dparts[2]?
    let hour := jsNumber tparts[0]?
    let minute := jsNumber tparts[1]?
    if year = none ∨ year = some 0 ∨ month = none ∨ month = some 0 ∨
        day = none ∨ day = some 0 then none
    else if hour = none ∨ minute = none then none
    else some (newLocalDate (year.getD 0) (month.getD 0 - 1) (day.getD 0)
      (hour.getD 0) (minute.getD 0))

/-- `formatDateInput` (part_000 lines 190-195): year unpadded, month and
day padded to two digits. -/
def formatDateInput (d : LocalDate) : JStr :=
  intToChars d.year ++
    '-' :: (padZero 2 (intToChars (d.month0 + 1)) ++ '-' :: padZero 2 (intToChars d.day))

/-- `toLocalIsoString` (part_000 lines 220-227): date part joined with
the `HH:MM:00` time part by `'T'`. -/
def toLocalIsoString (d : LocalDate) : JStr :=
  (intToChars d.year ++
    '-' :: (padZero 2 (intToChars (d.month0 + 1)) ++ '-' :: padZero 2 (intToChars d.day))) ++
  'T' :: (padZero 2 (intToChars d.hour) ++ ':' :: (padZero 2 (intToChars d.minute) ++ [':', '0', '0']))

/-- Canonical `YYYY-MM-DD` encoding of a calendar date — the claim's
input format. -/
def dateStrOf (y m d : Nat) : JStr :=
  padZero 4 (natToChars y) ++ '-' :: (padZero 2 (natToChars m) ++ '-' :: padZero 2 (natToChars d))

/-- Canonical `HH:MM` encoding of a wall-clock time. -/
def timeStrOf (h mi : Nat) : JStr :=
  padZero 2 (natToChars h) ++ ':' :: padZero 2 (natToChars mi)

/-- Gregorian leap year. -/
def isLeapYear (y : Nat) : Bool := y % 4 = 0 && (y % 100 ≠ 0 || y % 400 = 0)

/-- Length of a month, giving the claim's "day valid for that month". -/
def daysInMonth (y m : Nat) : Nat :=
  if m = 2 then (if isLeapYear y then 29 else 28)
  else if m = 4 ∨ m = 6 ∨ m = 9 ∨ m = 11 then 30 else 31

/-! ### Placement commit (modelled from the spec)

Modelled from the spec: the engine-side placement commit is part of the
Python backend, which is not among the available sources (src/ holds only
the web cabinet, READMEs and a launcher). Spec §3 ("no two tasks with
planned_start/planned_end set may overlap … violations must be rejected"),
§5 (manual operations atomically check-and-set against the current
occupied intervals; autoplan placements re-validate non-overlap before
commit) and §7 (OverlapConflict "surfaced to the caller", ValidationError
"never partially applied") determine the model: a placement op looks up
the task, checks the candidate interval against every other placed task of
the same user, and either commits or leaves the store unchanged.
Timestamps are epoch minutes. -/

structure PTask where
  id : Nat
  user_id : Nat
  planned_start : Option Int
  planned_end : Option Int
  schedule_source : ScheduleSource
deriving DecidableEq

/-- Does placing `[s, e)` for user `u` on task `tid` overlap some other
placed task of the same user? -/
def occupiedConflict (ts : List PTask) (u : Nat) (tid : Nat) (s e : Int) : Bool :=
  ts.any (fun t =>
    t.user_id == u && t.id != tid &&
    match t.planned_start, t.planned_end with
    | some s2, some e2 => decide (s2 < e ∧ s < e2)
    | _, _ => false)

inductive PlacementOp where
  | place (tid : Nat) (s e : Int) (src : ScheduleSource)
  | unschedule (tid : Nat)

/-- Commit the pair on one task row. -/
def placeFields (s e : Int) (src : ScheduleSource) (x : PTask) : PTask :=
  { x with planned_start := some s, planned_end := some e, schedule_source := src }

/-- Clear the pair on one task row (spec §6: both absent, source as sent). -/
def clearFields (x : PTask) : PTask :=
  { x with planned_start := none, planned_end := none, schedule_source := ScheduleSource.manual }

/-- One placement-affecting repository commit: `place` is a manual move
or an autoplan commit (both re-validate against occupied intervals and
reject on conflict); `unschedule` clears the pair. An unknown task id is
a ValidationError: nothing is applied. -/
def applyOp (ts : List PTask) : PlacementOp → List PTask
  | .place tid s e src =>
    match ts.find? (fun t => t.id == tid) with
    | none => ts
    | some t =>
      if occupiedConflict ts t.user_id tid s e then ts
      else ts.map (fun x => if x.id = tid then placeFields s e src x else x)
  | .unschedule tid =>
    ts.map (fun x => if x.id = tid then clearFields x else x)

/-- Spec §3 invariant: within one user no two placed tasks overlap. -/
def NoOverlap (ts : List PTask) : Prop :=
  ∀ a ∈ ts, ∀ b ∈ ts, a.user_id = b.user_id → a.id ≠ b.id →
    ∀ s1 e1 s2 e2, a.planned_start = some s1 → a.planned_end = some e1 →
      b.planned_start = some s2 → b.planned_end = some e2 →
      ¬(s1 < e2 ∧ s2 < e1)

/-- Repository invariant: unique task ids (spec §3: "id (unique, stable)")
plus the non-overlap invariant. -/
def StoreInv (ts : List PTask) : Prop :=
  (ts.map PTask.id).Nodup ∧ NoOverlap ts

/-! ### Slot Finder (modelled from the spec)

Modelled from the spec: the Slot Finder (`findSlot`, spec §4.3) is part
of the Python backend, which is not among the available sources; the
README (part_001 lines 90-97) documents the workout travel buffer it
implements. Required interval length is the task duration, except that a
workout needs `max(session_duration, 2*travel_oneway_min +
session_duration)`; the session is placed centered in the found interval
with the travel margins around it, and a workout session must not start
exactly at a meal anchor's end (zero gap), in which case the
next-earliest interval is tried. -/

inductive TaskKind where
  | workout
  | meal
  | morning
  | work
  | other
deriving DecidableEq

structure WorkoutPolicy where
  session_duration : Int
  travel_oneway_min : Int
deriving DecidableEq

structure Slot where
  start : Int
  stop : Int
deriving DecidableEq

def requiredLength (kind : TaskKind) (dur : Int) (pol : WorkoutPolicy) : Int :=
  if kind = TaskKind.workout then
    max pol.session_duration (2 * pol.travel_oneway_min + pol.session_duration)
  else dur

/-- Center the workout session in the interval, travel margins around. -/
def placeWorkoutIn (iv : Slot) (pol : WorkoutPolicy) : Slot :=
  let off := (iv.stop - iv.start - pol.session_duration) / 2
  { start := iv.start + off, stop := iv.start + off + pol.session_duration }

def findSlot (kind : TaskKind) (dur : Int) (pol : WorkoutPolicy)
    (mealEnds : List Int) : List Slot → Option Slot
  | [] => none
  | iv :: rest =>
    if iv.stop - iv.start ≥ requiredLength kind dur pol then
      if kind = TaskKind.workout then
        if (placeWorkoutIn iv pol).start ∈ mealEnds then findSlot kind dur pol mealEnds rest
        else some (placeWorkoutIn iv pol)
      else some { start := iv.start, stop := iv.start + requiredLength kind dur pol }
    else findSlot kind dur pol mealEnds rest

/-! ### Anchor Resolver (modelled from the spec)

Modelled from the spec: the Anchor Resolver (`ensureAnchors`, spec §4.1)
is part of the Python backend, which is not among the available sources;
the README (part_001 lines 83-88) documents the UPSERT-by-anchor_key
idempotency it implements. For each RoutineStep the resolver computes
the anchor placement from the day start and upserts by
`(user_id, anchor_key)`: an existing row keeps its placement and only
its descriptive fields (title, duration) are rewritten from the config;
a missing row is inserted with schedule_source = autoplan. The anchor
key `routine:<step_id>:<day>` is modelled as the pair of its variable
parts, in which the string format is injective. -/

inductive TaskType where
  | user
  | anchor
  | system
deriving DecidableEq

structure RoutineStep where
  step_id : String
  offset_min : Int
  duration_min : Int
  title : String
deriving DecidableEq

structure EngineTask where
  id : Nat
  user_id : Nat
  task_type : TaskType
  anchor_key : Option (String × String)
  title : String
  planned_start : Option Int
  planned_end : Option Int
  estimate_minutes : Option Int
  schedule_source : ScheduleSource
deriving DecidableEq

structure AnchorStore where
  tasks : List EngineTask
  nextId : Nat
deriving DecidableEq

/-- Row selector of the upsert: matches on `(user_id, anchor_key)`. -/
def anchorPred (u : Nat) (k : String × String) (t : EngineTask) : Bool :=
  decide (t.user_id = u ∧ t.anchor_key = some k)

/-- Rewrite only the descriptive fields from the routine config,
leaving the placement untouched. -/
def refreshFields (step : RoutineStep) (t : EngineTask) : EngineTask :=
  { t with title := step.title, estimate_minutes := some step.duration_min }

/-- A freshly inserted anchor row: placement at day start + offset,
schedule_source = autoplan. -/
def newAnchor (u : Nat) (day : String) (dayStart : Int) (idv : Nat)
    (step : RoutineStep) : EngineTask :=
  { id := idv, user_id := u, task_type := TaskType.anchor,
    anchor_key := some (step.step_id, day), title := step.title,
    planned_start := some (dayStart + step.offset_min),
    planned_end := some (dayStart + step.offset_min + step.duration_min),
    estimate_minutes := some step.duration_min,
    schedule_source := ScheduleSource.autoplan }

def upsertAnchor (u : Nat) (day : String) (dayStart : Int) (st : AnchorStore)
    (step : RoutineStep) : AnchorStore × EngineTask :=
  match st.tasks.find? (anchorPred u (step.step_id, day)) with
  | some t =>
    ({ st with tasks := st.tasks.map (fun x => if x = t then refreshFields step t else x) },
      refreshFields step t)
  | none =>
    (AnchorStore.mk (st.tasks ++ [newAnchor u day dayStart st.nextId step]) (st.nextId + 1),
      newAnchor u day dayStart st.nextId step)

def ensureAnchors (u : Nat) (day : String) (dayStart : Int) :
    List RoutineStep → AnchorStore → AnchorStore × List EngineTask
  | [], st => (st, [])
  | step :: rest, st =>
    ((ensureAnchors u day dayStart rest (upsertAnchor u day dayStart st step).1).1,
      (upsertAnchor u day dayStart st step).2 ::
        (ensureAnchors u day dayStart rest (upsertAnchor u day dayStart st step).1).2)

end DayPlanner

namespace DayPlanner

/-- C4: For every task, the duration used for placement equals the
difference planned_end minus planned_start rounded to whole minutes when
both fields are set and that difference is positive; otherwise it equals
estimate_minutes when that field is present and non-zero; otherwise it
is 30 minutes. -/
theorem c4_taskDuration_rule (t : DurTask) :
    getTaskDurationMinutes t = claimedDurationMinutes t := by
  unfold getTaskDurationMinutes claimedDurationMinutes estimateOr30
  cases t.planned_start <;> cases t.planned_end <;>
    cases t.estimate_minutes <;> simp

/-- C8: For every task whose priority is in 1–3 (or absent, treated as
2), the cycle action requests current+1 when current < 3 and 1 when
current >= 3, so the requested priority is always in 1–3. -/
theorem c8_priority_cycle (p : Option Int)
    (h : p = none ∨ p = some 1 ∨ p = some 2 ∨ p = some 3) :
    (currentPriority p < 3 → nextPriority p = currentPriority p + 1) ∧
    (currentPriority p ≥ 3 → nextPriority p = 1) ∧
    1 ≤ nextPriority p ∧ nextPriority p ≤ 3 := by
  rcases h with h | h | h | h <;> subst h <;> simp [currentPriority, nextPriority]

/-- Witness for C8 at a concrete priority. -/
theorem c8_priority_cycle_witness :
    (currentPriority (some 2) < 3 → nextPriority (some 2) = currentPriority (some 2) + 1) ∧
    (currentPriority (some 2) ≥ 3 → nextPriority (some 2) = 1) ∧
    1 ≤ nextPriority (some 2) ∧ nextPriority (some 2) ≤ 3 :=
  c8_priority_cycle (some 2) (Or.inr (Or.inr (Or.inl rfl)))

/-- C5: Every task mutation issued by the client that touches placement
fields contains both planned_start and planned_end — either both set to
timestamps or both set to null; no call site sends exactly one of the
pair. -/
theorem c5_placement_fields_paired {α : Type} (m : ClientMutation α)
    (h : touchesPlacement (payloadOf m)) : placementPaired (payloadOf m) := by
  cases m <;>
    simp [payloadOf, touchesPlacement, placementPaired, movePayload,
      dropOnDayPayload, dropOnSlotPayload, timeEditPayload, dropOnTaskPayload,
      unschedulePayload, titleEditPayload, notesEditPayload, markDonePayload,
      priorityPayload] at h ⊢

/-- Witness for C5 at the unschedule call site. -/
theorem c5_placement_fields_paired_witness :
    placementPaired (payloadOf (ClientMutation.unschedule (α := Int))) :=
  c5_placement_fields_paired ClientMutation.unschedule
    (Or.inl (by simp [payloadOf, unschedulePayload]))

/-- C6: Every human placement action in the UI — drop on a day, drop on
a time slot, inline time edit, and the move form — sends
schedule_source = 'manual' together with the planned_start/planned_end
pair. -/
theorem c6_human_placements_manual {α : Type} (start stop : α) :
    manualPlacement (payloadOf (ClientMutation.dropOnDay start stop)) ∧
    manualPlacement (payloadOf (ClientMutation.dropOnSlot start stop)) ∧
    manualPlacement (payloadOf (ClientMutation.timeEdit start stop)) ∧
    manualPlacement (payloadOf (ClientMutation.move start stop)) := by
  refine ⟨⟨rfl, start, stop, rfl, rfl⟩, ⟨rfl, start, stop, rfl, rfl⟩,
    ⟨rfl, start, stop, rfl, rfl⟩, ⟨rfl, start, stop, rfl, rfl⟩⟩

/-- C7: Unschedule returns a task to backlog by sending both placement
fields as null with schedule_source = 'manual', and the UI enables the
unschedule button only when a selected task has planned_start set. -/
theorem c7_unschedule {α : Type} (enabled : Bool) (task : Option (UITask α))
    (h : unscheduleDisabled enabled task = false) :
    (∃ t, task = some t ∧ t.planned_start ≠ none) ∧
    (payloadOf (ClientMutation.unschedule : ClientMutation α)).planned_start = some none ∧
    (payloadOf (ClientMutation.unschedule : ClientMutation α)).planned_end = some none ∧
    (payloadOf (ClientMutation.unschedule : ClientMutation α)).schedule_source =
      some ScheduleSource.manual := by
  refine ⟨?_, rfl, rfl, rfl⟩
  match enabled, task with
  | false, _ => simp [unscheduleDisabled] at h
  | true, none => simp [unscheduleDisabled] at h
  | true, some t =>
    refine ⟨t, rfl, ?_⟩
    simp [unscheduleDisabled, Option.isNone_iff_eq_none] at h
    exact Option.isSome_iff_ne_none.mp h

/-- Witness for C7 with a concretely scheduled selected task. -/
theorem c7_unschedule_witness :
    (∃ t, (some (UITask.mk (some (0 : Int))) : Option (UITask Int)) = some t ∧
      t.planned_start ≠ none) ∧
    (payloadOf (ClientMutation.unschedule : ClientMutation Int)).planned_start = some none ∧
    (payloadOf (ClientMutation.unschedule : ClientMutation Int)).planned_end = some none ∧
    (payloadOf (ClientMutation.unschedule : ClientMutation Int)).schedule_source =
      some ScheduleSource.manual :=
  c7_unschedule true (some (UITask.mk (some (0 : Int)))) rfl

/-- C9: startOfWeek(d) is the Monday (getDay = 1) of the week containing
d at 00:00:00.000 local time — the unique Monday at most 6 days before
d — and startOfWeek is idempotent. -/
theorem c9_startOfWeek_monday_idempotent (d : LocalInstant) :
    (startOfWeek d).ms = 0 ∧
    getDay (startOfWeek d) = 1 ∧
    (startOfWeek d).days ≤ d.days ∧
    d.days - (startOfWeek d).days < 7 ∧
    startOfWeek (startOfWeek d) = startOfWeek d := by
  unfold startOfWeek getDay
  dsimp only
  refine ⟨rfl, ?_, ?_, ?_, ?_⟩
  · omega
  · omega
  · omega
  · simp only [LocalInstant.mk.injEq, and_true, and_self]
    omega

/-! ### Helper lemmas for the date/time string functions -/

theorem digitVal_digitChar {n : Nat} (h : n < 10) : digitVal (Nat.digitChar n) = n := by
  interval_cases n <;> rfl

theorem isDigit_digitChar {n : Nat} (h : n < 10) : (Nat.digitChar n).isDigit = true := by
  interval_cases n <;> rfl

theorem charsVal_singleton_append (a : JStr) (c : Char) :
    charsVal (a ++ [c]) = charsVal a * 10 + digitVal c := by
  simp [charsVal, List.foldl_append]

theorem natToCharsFuel_of_lt {fuel n : Nat} (h : n < 10) :
    natToCharsFuel fuel n = [Nat.digitChar n] := by
  cases fuel <;> simp [natToCharsFuel, h]

theorem natToCharsFuel_ne_nil (fuel n : Nat) : natToCharsFuel fuel n ≠ [] := by
  cases fuel with
  | zero => simp [natToCharsFuel]
  | succ f =>
    by_cases h : n < 10 <;> simp [natToCharsFuel, h]

theorem charsVal_natToCharsFuel (fuel : Nat) :
    ∀ n, n ≤ fuel → charsVal (natToCharsFuel fuel n) = n := by
  induction fuel with
  | zero =>
    intro n hn
    have hz : n = 0 := by omega
    subst hz
    decide
  | succ fuel ih =>
    intro n hn
    by_cases h : n < 10
    · rw [natToCharsFuel_of_lt h]
      simp [charsVal, digitVal_digitChar h]
    · show charsVal (if n < 10 then _ else _) = n
      rw [if_neg h, charsVal_singleton_append, ih (n / 10) (by omega),
        digitVal_digitChar (by omega)]
      omega

theorem charsVal_natToChars (n : Nat) : charsVal (natToChars n) = n :=
  charsVal_natToCharsFuel n n (Nat.le_refl n)

theorem isDigits_append (a b : JStr) : isDigits (a ++ b) = (isDigits a && isDigits b) := by
  simp [isDigits, List.all_append]

theorem isDigits_natToCharsFuel (fuel : Nat) :
    ∀ n, n ≤ fuel → isDigits (natToCharsFuel fuel n) = true := by
  induction fuel with
  | zero =>
    intro n hn
    have hz : n = 0 := by omega
    subst hz
    decide
  | succ fuel ih =>
    intro n hn
    by_cases h : n < 10
    · rw [natToCharsFuel_of_lt h]
      simp [isDigits, isDigit_digitChar h]
    · show isDigits (if n < 10 then _ else _) = true
      rw [if_neg h, isDigits_append, ih (n / 10) (by omega)]
      simp [isDigits, isDigit_digitChar (show n % 10 < 10 by omega)]

theorem isDigits_natToChars (n : Nat) : isDigits (natToChars n) = true :=
  isDigits_natToCharsFuel n n (Nat.le_refl n)

theorem isDigits_padZero (k : Nat) {s : JStr} (h : isDigits s = true) :
    isDigits (padZero k s) = true := by
  rw [padZero, isDigits_append, h]
  simp only [Bool.and_true]
  simp only [isDigits, List.all_eq_true]
  intro c hc
  rw [List.eq_of_mem_replicate hc]
  decide

theorem foldl_digit_replicate_zero (j : Nat) :
    List.foldl (fun acc c => acc * 10 + digitVal c) 0 (List.replicate j '0') = 0 := by
  induction j with
  | zero => rfl
  | succ j ih =>
    simp only [List.replicate_succ, List.foldl_cons]
    have h0 : 0 * 10 + digitVal '0' = 0 := by decide
    rw [h0]
    exact ih

theorem charsVal_padZero (k : Nat) (s : JStr) : charsVal (padZero k s) = charsVal s := by
  simp [padZero, charsVal, List.foldl_append, foldl_digit_replicate_zero]

theorem padZero_ne_nil {k : Nat} {s : JStr} (h : s ≠ []) : padZero k s ≠ [] := by
  simp [padZero, h]

theorem padZero_of_length_ge {k : Nat} {s : JStr} (h : k ≤ s.length) : padZero k s = s := by
  simp [padZero, Nat.sub_eq_zero_of_le h]

theorem jsNumber_canonical (k n : Nat) :
    jsNumber (some (padZero k (natToChars n))) = some ((n : Nat) : Int) := by
  have hne : ¬ (padZero k (natToChars n)).isEmpty = true := by
    simp only [List.isEmpty_iff]
    exact padZero_ne_nil (natToCharsFuel_ne_nil n n)
  simp only [jsNumber]
  rw [if_neg hne, if_pos (isDigits_padZero k (isDigits_natToChars n)),
    charsVal_padZero, charsVal_natToChars]

theorem not_mem_of_isDigits {c : Char} {s : JStr} (hs : isDigits s = true)
    (hc : c.isDigit = false) : c ∉ s := by
  intro hmem
  unfold isDigits at hs
  rw [List.all_eq_true] at hs
  have := hs c hmem
  simp [hc] at this

theorem splitChar_of_not_mem {sep : Char} : ∀ {a : JStr}, sep ∉ a → splitChar sep a = [a] := by
  intro a
  induction a with
  | nil => intro _; rfl
  | cons c rest ih =>
    intro h
    have hc : ¬ c = sep := fun e => h (e ▸ List.mem_cons_self c rest)
    have hr : sep ∉ rest := fun hm => h (List.mem_cons_of_mem _ hm)
    simp only [splitChar, if_neg hc, ih hr]

theorem splitChar_append {sep : Char} (b : JStr) :
    ∀ {a : JStr}, sep ∉ a → splitChar sep (a ++ sep :: b) = a :: splitChar sep b := by
  intro a
  induction a with
  | nil =>
    intro _
    simp [splitChar]
  | cons c rest ih =>
    intro h
    have hc : ¬ c = sep := fun e => h (e ▸ List.mem_cons_self c rest)
    have hr : sep ∉ rest := fun hm => h (List.mem_cons_of_mem _ hm)
    simp only [List.cons_append, splitChar, if_neg hc, List.append_eq, ih hr]

theorem intToChars_natCast (n : Nat) : intToChars ((n : Nat) : Int) = natToChars n := by
  unfold intToChars
  rw [if_neg (by omega)]
  simp

theorem natToChars_of_lt {n : Nat} (h : n < 10) : natToChars n = [Nat.digitChar n] :=
  natToCharsFuel_of_lt h

theorem natToCharsFuel_congr : ∀ fuel fuel2 n : Nat, n ≤ fuel → n ≤ fuel2 →
    natToCharsFuel fuel n = natToCharsFuel fuel2 n := by
  intro fuel
  induction fuel with
  | zero =>
    intro fuel2 n h1 _
    have hz : n = 0 := by omega
    subst hz
    rw [natToCharsFuel_of_lt (by omega), natToCharsFuel_of_lt (by omega)]
  | succ f ih =>
    intro fuel2 n h1 h2
    by_cases h : n < 10
    · rw [natToCharsFuel_of_lt h, natToCharsFuel_of_lt h]
    · cases fuel2 with
      | zero => omega
      | succ g =>
        show (if n < 10 then _ else _) = (if n < 10 then _ else _)
        rw [if_neg h, if_neg h, ih g (n / 10) (by omega) (by omega)]

theorem natToChars_length_step {n : Nat} (h : 10 ≤ n) :
    (natToChars n).length = (natToChars (n / 10)).length + 1 := by
  unfold natToChars
  cases n with
  | zero => omega
  | succ f =>
    simp only [natToCharsFuel]
    rw [if_neg (by omega)]
    rw [natToCharsFuel_congr f ((f + 1) / 10) ((f + 1) / 10) (by omega) (Nat.le_refl _)]
    simp

theorem natToChars_length_four {y : Nat} (h1 : 1000 ≤ y) (h2 : y ≤ 9999) :
    (natToChars y).length = 4 := by
  rw [natToChars_length_step (by omega), natToChars_length_step (by omega),
    natToChars_length_step (by omega), natToChars_of_lt (show y / 10 / 10 / 10 < 10 by omega)]
  rfl

theorem isEmpty_append_cons (a : JStr) (c : Char) (b : JStr) :
    (a ++ c :: b).isEmpty = false := by
  cases a <;> rfl

/-- C10 counterexample: the claim fails as stated. '0099-01-01' is a
valid 'YYYY-MM-DD' string with year 99 ≥ 1, but the JS Date constructor
maps years 0..99 to 1900+year, so parseLocalDateTime yields a date whose
getFullYear() is 1999 and formatDateInput returns '1999-01-01', not the
original string. -/
theorem c10_counterexample :
    parseLocalDateTime (dateStrOf 99 1 1) (timeStrOf 0 0) =
      some (LocalDate.mk 1999 0 1 0 0) ∧
    formatDateInput (LocalDate.mk 1999 0 1 0 0) ≠ dateStrOf 99 1 1 := by
  constructor
  · decide
  · decide

/-- C10 (amended): for every valid date string 'YYYY-MM-DD' whose year
is 1000–9999 (four significant digits, outside the constructor's
two-digit-year range) and valid time string 'HH:MM', parseLocalDateTime
returns a non-null Date carrying exactly those fields, formatDateInput
gives back the date string, and toLocalIsoString is the date string,
'T', the time string and ':00' concatenated. -/
theorem c10_parse_format_roundtrip (y m d h mi : Nat)
    (hy1 : 1000 ≤ y) (hy2 : y ≤ 9999) (hm1 : 1 ≤ m) (hm2 : m ≤ 12)
    (hd1 : 1 ≤ d) (hd2 : d ≤ daysInMonth y m) (hh : h ≤ 23) (hmi : mi ≤ 59) :
    parseLocalDateTime (dateStrOf y m d) (timeStrOf h mi) =
      some (LocalDate.mk (y : Int) ((m : Int) - 1) (d : Int) (h : Int) (mi : Int)) ∧
    formatDateInput (LocalDate.mk (y : Int) ((m : Int) - 1) (d : Int) (h : Int) (mi : Int)) =
      dateStrOf y m d ∧
    toLocalIsoString (LocalDate.mk (y : Int) ((m : Int) - 1) (d : Int) (h : Int) (mi : Int)) =
      dateStrOf y m d ++ 'T' :: (timeStrOf h mi ++ [':', '0', '0']) := by
  have hdashDigit : ('-').isDigit = false := by decide
  have hcolonDigit : (':').isDigit = false := by decide
  have hA : '-' ∉ padZero 4 (natToChars y) :=
    not_mem_of_isDigits (isDigits_padZero 4 (isDigits_natToChars y)) hdashDigit
  have hB : '-' ∉ padZero 2 (natToChars m) :=
    not_mem_of_isDigits (isDigits_padZero 2 (isDigits_natToChars m)) hdashDigit
  have hC : '-' ∉ padZero 2 (natToChars d) :=
    not_mem_of_isDigits (isDigits_padZero 2 (isDigits_natToChars d)) hdashDigit
  have hH : ':' ∉ padZero 2 (natToChars h) :=
    not_mem_of_isDigits (isDigits_padZero 2 (isDigits_natToChars h)) hcolonDigit
  have hM : ':' ∉ padZero 2 (natToChars mi) :=
    not_mem_of_isDigits (isDigits_padZero 2 (isDigits_natToChars mi)) hcolonDigit
  have hylen : 4 ≤ (natToChars y).length := by
    rw [natToChars_length_four hy1 hy2]
  have hm' : (m : Int) - 1 + 1 = (m : Int) := by ring
  refine ⟨?_, ?_, ?_⟩
  · unfold parseLocalDateTime dateStrOf timeStrOf
    rw [if_neg (by
      simp only [isEmpty_append_cons, Bool.or_self]
      exact Bool.false_ne_true)]
    simp only [splitChar_append _ hA, splitChar_append _ hB, splitChar_of_not_mem hC,
      splitChar_append _ hH, splitChar_of_not_mem hM, List.getElem?_cons_zero,
      List.getElem?_cons_succ, jsNumber_canonical]
    rw [if_neg (by
      intro hcon
      rcases hcon with hx | hx | hx | hx | hx | hx <;> simp at hx <;> omega)]
    rw [if_neg (by
      intro hcon
      rcases hcon with hx | hx <;> simp at hx)]
    simp only [Option.getD_some, newLocalDate, adjustYear]
    rw [if_neg (by
      intro hcon
      omega)]
  · unfold formatDateInput dateStrOf
    dsimp only
    rw [hm', intToChars_natCast, intToChars_natCast, intToChars_natCast,
      padZero_of_length_ge hylen]
  · unfold toLocalIsoString dateStrOf timeStrOf
    dsimp only
    rw [hm', intToChars_natCast, intToChars_natCast, intToChars_natCast,
      intToChars_natCast, intToChars_natCast, padZero_of_length_ge hylen]
    simp [List.append_assoc]

/-! ### Placement-commit lemmas (C2) -/

theorem applyOp_inv (ts : List PTask) (op : PlacementOp) (h : StoreInv ts) :
    StoreInv (applyOp ts op) := by
  obtain ⟨hnd, hno⟩ := h
  cases op with
  | unschedule tid =>
    simp only [applyOp]
    refine ⟨?_, ?_⟩
    · have hids : (ts.map (fun x => if x.id = tid then clearFields x else x)).map PTask.id =
          ts.map PTask.id := by
        rw [List.map_map]
        apply List.map_congr_left
        intro x _
        by_cases hx : x.id = tid <;> simp [hx, clearFields]
      rw [hids]
      exact hnd
    · intro a' ha' b' hb' huser hid s1 e1 s2 e2 has1 hae1 hbs2 hbe2
      obtain ⟨a, ha, hga⟩ := List.mem_map.mp ha'
      obtain ⟨b, hb, hgb⟩ := List.mem_map.mp hb'
      have haeq : a' = a := by
        by_cases hx : a.id = tid
        · exfalso
          rw [← hga] at has1
          simp [hx, clearFields] at has1
        · rw [← hga]
          simp [hx]
      have hbeq : b' = b := by
        by_cases hx : b.id = tid
        · exfalso
          rw [← hgb] at hbs2
          simp [hx, clearFields] at hbs2
        · rw [← hgb]
          simp [hx]
      rw [haeq] at has1 hae1
      rw [hbeq] at hbs2 hbe2
      rw [haeq, hbeq] at huser hid
      exact hno a ha b hb huser hid s1 e1 s2 e2 has1 hae1 hbs2 hbe2
  | place tid s e src =>
    simp only [applyOp]
    cases hf : ts.find? (fun t => t.id == tid) with
    | none => exact ⟨hnd, hno⟩
    | some t =>
      by_cases hc : occupiedConflict ts t.user_id tid s e
      · simp only [hc, if_true]
        exact ⟨hnd, hno⟩
      · simp only [hc, if_false, Bool.false_eq_true]
        have ht_mem : t ∈ ts := List.mem_of_find?_eq_some hf
        have ht_id : t.id = tid := by
          have := List.find?_some hf
          simpa using this
        have hcb : ∀ b ∈ ts, b.user_id = t.user_id → b.id ≠ tid →
            ∀ s2 e2, b.planned_start = some s2 → b.planned_end = some e2 →
            ¬(s2 < e ∧ s < e2) := by
          intro b hb hbu hbid s2 e2 hbs hbe hcon
          apply hc
          unfold occupiedConflict
          rw [List.any_eq_true]
          refine ⟨b, hb, ?_⟩
          simp only [hbs, hbe]
          simp [hbu, hbid, hcon]
        refine ⟨?_, ?_⟩
        · have hids : (ts.map (fun x => if x.id = tid then placeFields s e src x else x)).map
              PTask.id = ts.map PTask.id := by
            rw [List.map_map]
            apply List.map_congr_left
            intro x _
            by_cases hx : x.id = tid <;> simp [hx, placeFields]
          rw [hids]
          exact hnd
        · intro a' ha' b' hb' huser hid s1 e1 s2 e2 has1 hae1 hbs2 hbe2
          obtain ⟨a, ha, hga⟩ := List.mem_map.mp ha'
          obtain ⟨b, hb, hgb⟩ := List.mem_map.mp hb'
          have haid : a'.id = a.id := by
            rw [← hga]
            by_cases hx : a.id = tid <;> simp [hx, placeFields]
          have hbid : b'.id = b.id := by
            rw [← hgb]
            by_cases hx : b.id = tid <;> simp [hx, placeFields]
          have hauser : a'.user_id = a.user_id := by
            rw [← hga]
            by_cases hx : a.id = tid <;> simp [hx, placeFields]
          have hbuser : b'.user_id = b.user_id := by
            rw [← hgb]
            by_cases hx : b.id = tid <;> simp [hx, placeFields]
          by_cases hxa : a.id = tid <;> by_cases hxb : b.id = tid
          · exact absurd (by rw [haid, hbid, hxa, hxb]) hid
          · have hbeq : b' = b := by
              rw [← hgb]
              simp [hxb]
            have haeq : a' = placeFields s e src a := by
              rw [← hga]
              simp [hxa]
            rw [haeq] at has1 hae1
            simp only [placeFields] at has1 hae1
            have hs1 : s1 = s := by injection has1 with h1; exact h1.symm
            have he1 : e1 = e := by injection hae1 with h1; exact h1.symm
            subst hs1
            subst he1
            have hat : a = t := List.inj_on_of_nodup_map hnd ha ht_mem (by rw [hxa, ht_id])
            rw [hbeq] at hbs2 hbe2
            have hbu : b.user_id = t.user_id := by
              rw [← hat, ← hauser, huser, hbuser]
            have hnc := hcb b hb hbu hxb s2 e2 hbs2 hbe2
            intro hcon
            exact hnc ⟨hcon.2, hcon.1⟩
          · have haeq : a' = a := by
              rw [← hga]
              simp [hxa]
            have hbeq : b' = placeFields s e src b := by
              rw [← hgb]
              simp [hxb]
            rw [hbeq] at hbs2 hbe2
            simp only [placeFields] at hbs2 hbe2
            have hs2 : s2 = s := by injection hbs2 with h1; exact h1.symm
            have he2 : e2 = e := by injection hbe2 with h1; exact h1.symm
            subst hs2
            subst he2
            have hbt : b = t := List.inj_on_of_nodup_map hnd hb ht_mem (by rw [hxb, ht_id])
            rw [haeq] at has1 hae1
            have hau : a.user_id = t.user_id := by
              rw [← hbt, ← hbuser, ← huser, hauser]
            have hnc := hcb a ha hau hxa s1 e1 has1 hae1
            intro hcon
            exact hnc ⟨hcon.1, hcon.2⟩
          · have haeq : a' = a := by
              rw [← hga]
              simp [hxa]
            have hbeq : b' = b := by
              rw [← hgb]
              simp [hxb]
            rw [haeq] at has1 hae1
            rw [hbeq] at hbs2 hbe2
            rw [haeq, hbeq] at huser hid
            exact hno a ha b hb huser hid s1 e1 s2 e2 has1 hae1 hbs2 hbe2

theorem foldl_applyOp_inv (ops : List PlacementOp) :
    ∀ ts0, StoreInv ts0 → StoreInv (ops.foldl applyOp ts0) := by
  induction ops with
  | nil => intro ts0 h; exact h
  | cons op rest ih => intro ts0 h; exact ih _ (applyOp_inv ts0 op h)

/-- C2: starting from a store satisfying the non-overlap invariant (and
unique task ids), any sequence of placement operations — manual moves,
autoplan commits, unschedules — preserves it: no two placed tasks of one
user ever overlap; and a placement that conflicts with an occupied
interval is rejected, leaving the store unchanged. -/
theorem c2_non_overlap_invariant (ts0 : List PTask) (ops : List PlacementOp)
    (hinv : StoreInv ts0) :
    StoreInv (ops.foldl applyOp ts0) ∧
    (∀ (ts : List PTask) (tid : Nat) (s e : Int) (src : ScheduleSource) (t : PTask),
      ts.find? (fun x => x.id == tid) = some t →
      occupiedConflict ts t.user_id tid s e = true →
      applyOp ts (PlacementOp.place tid s e src) = ts) := by
  constructor
  · exact foldl_applyOp_inv ops ts0 hinv
  · intro ts tid s e src t hf hc
    simp [applyOp, hf, hc]

/-- Witness for C2: a store with one placed task and an autoplan attempt. -/
theorem c2_non_overlap_invariant_witness :
    StoreInv ([PlacementOp.place 1 120 180 ScheduleSource.autoplan].foldl applyOp
      [PTask.mk 1 7 (some 0) (some 60) ScheduleSource.manual]) ∧
    (∀ (ts : List PTask) (tid : Nat) (s e : Int) (src : ScheduleSource) (t : PTask),
      ts.find? (fun x => x.id == tid) = some t →
      occupiedConflict ts t.user_id tid s e = true →
      applyOp ts (PlacementOp.place tid s e src) = ts) :=
  c2_non_overlap_invariant [PTask.mk 1 7 (some 0) (some 60) ScheduleSource.manual]
    [PlacementOp.place 1 120 180 ScheduleSource.autoplan]
    (by
      constructor
      · simp
      · intro a ha b hb huser hid s1 e1 s2 e2 _ _ _ _
        simp only [List.mem_singleton] at ha hb
        rw [ha, hb] at hid
        exact absurd rfl hid)

theorem findSlot_workout_mem (dur : Int) (pol : WorkoutPolicy)
    (hT : 0 ≤ pol.travel_oneway_min) (mealEnds : List Int) (slot : Slot) :
    ∀ free : List Slot, findSlot TaskKind.workout dur pol mealEnds free = some slot →
      slot.stop - slot.start = pol.session_duration ∧
      ∃ iv ∈ free,
        iv.stop - iv.start ≥
          max pol.session_duration (2 * pol.travel_oneway_min + pol.session_duration) ∧
        iv.start + pol.travel_oneway_min ≤ slot.start ∧
        slot.stop + pol.travel_oneway_min ≤ iv.stop := by
  intro free
  induction free with
  | nil =>
    intro h
    simp [findSlot] at h
  | cons iv rest ih =>
    intro hfind
    rw [findSlot] at hfind
    by_cases hlen : iv.stop - iv.start ≥ requiredLength TaskKind.workout dur pol
    · rw [if_pos hlen, if_pos rfl] at hfind
      by_cases hm : (placeWorkoutIn iv pol).start ∈ mealEnds
      · rw [if_pos hm] at hfind
        obtain ⟨h1, iv', hmem, h2⟩ := ih hfind
        exact ⟨h1, iv', List.mem_cons_of_mem _ hmem, h2⟩
      · rw [if_neg hm] at hfind
        have hslot : slot = placeWorkoutIn iv pol := by
          injection hfind with h
          exact h.symm
        have hreq : requiredLength TaskKind.workout dur pol =
            max pol.session_duration (2 * pol.travel_oneway_min + pol.session_duration) := by
          simp [requiredLength]
        rw [hreq] at hlen
        have hlen2 : 2 * pol.travel_oneway_min + pol.session_duration ≤
            iv.stop - iv.start :=
          le_trans (le_max_right _ _) hlen
        subst hslot
        unfold placeWorkoutIn
        dsimp only
        refine ⟨by ring, iv, List.mem_cons_self _ _, hlen, ?_, ?_⟩
        · omega
        · omega
    · rw [if_neg hlen] at hfind
      obtain ⟨h1, iv', hmem, h2⟩ := ih hfind
      exact ⟨h1, iv', List.mem_cons_of_mem _ hmem, h2⟩

/-- C3: when the Slot Finder places a workout it needs a free interval of
length at least max(S, S + 2T) (S the policy session duration, T the
one-way travel buffer), stores a planned pair spanning exactly S minutes,
and leaves at least T minutes free immediately before and after within
that interval; in particular a 60-minute workout with a 15-minute buffer
requires a 90-minute block. -/
theorem c3_workout_travel_buffer (dur : Int) (pol : WorkoutPolicy)
    (hT : 0 ≤ pol.travel_oneway_min) (mealEnds : List Int) (free : List Slot) (slot : Slot)
    (hfind : findSlot TaskKind.workout dur pol mealEnds free = some slot) :
    (slot.stop - slot.start = pol.session_duration ∧
      ∃ iv ∈ free,
        iv.stop - iv.start ≥
          max pol.session_duration (2 * pol.travel_oneway_min + pol.session_duration) ∧
        iv.start + pol.travel_oneway_min ≤ slot.start ∧
        slot.stop + pol.travel_oneway_min ≤ iv.stop) ∧
    requiredLength TaskKind.workout dur pol =
      max pol.session_duration (2 * pol.travel_oneway_min + pol.session_duration) ∧
    requiredLength TaskKind.workout 60 (WorkoutPolicy.mk 60 15) = 90 :=
  ⟨findSlot_workout_mem dur pol hT mealEnds slot free hfind,
    by simp [requiredLength], by decide⟩

/-- Witness for C3: a 60/15 workout into a single 120-minute free block
(08:00-10:00 in minutes), placed 08:30-09:30. -/
theorem c3_workout_travel_buffer_witness :
    ((Slot.mk 510 570).stop - (Slot.mk 510 570).start = (WorkoutPolicy.mk 60 15).session_duration ∧
      ∃ iv ∈ [Slot.mk 480 600],
        iv.stop - iv.start ≥
          max (WorkoutPolicy.mk 60 15).session_duration
            (2 * (WorkoutPolicy.mk 60 15).travel_oneway_min +
              (WorkoutPolicy.mk 60 15).session_duration) ∧
        iv.start + (WorkoutPolicy.mk 60 15).travel_oneway_min ≤ (Slot.mk 510 570).start ∧
        (Slot.mk 510 570).stop + (WorkoutPolicy.mk 60 15).travel_oneway_min ≤ iv.stop) ∧
    requiredLength TaskKind.workout 60 (WorkoutPolicy.mk 60 15) =
      max (WorkoutPolicy.mk 60 15).session_duration
        (2 * (WorkoutPolicy.mk 60 15).travel_oneway_min +
          (WorkoutPolicy.mk 60 15).session_duration) ∧
    requiredLength TaskKind.workout 60 (WorkoutPolicy.mk 60 15) = 90 :=
  c3_workout_travel_buffer 60 (WorkoutPolicy.mk 60 15) (by decide) []
    [Slot.mk 480 600] (Slot.mk 510 570) (by decide)

/-! ### Anchor Resolver lemmas (C1) -/

theorem find?_append_of_some {α : Type} {p : α → Bool} {l : List α} {a : α}
    (h : l.find? p = some a) (l2 : List α) : (l ++ l2).find? p = some a := by
  induction l with
  | nil => simp at h
  | cons x l ih =>
    cases hpx : p x with
    | true =>
      rw [List.find?_cons_of_pos _ hpx] at h
      rw [List.cons_append, List.find?_cons_of_pos _ hpx]
      exact h
    | false =>
      rw [List.find?_cons_of_neg _ (by simp [hpx])] at h
      rw [List.cons_append, List.find?_cons_of_neg _ (by simp [hpx])]
      exact ih h

theorem find?_append_of_none {α : Type} {p : α → Bool} {l : List α}
    (h : l.find? p = none) (l2 : List α) : (l ++ l2).find? p = l2.find? p := by
  induction l with
  | nil => rfl
  | cons x l ih =>
    cases hpx : p x with
    | true =>
      rw [List.find?_cons_of_pos _ hpx] at h
      exact absurd h (by simp)
    | false =>
      rw [List.find?_cons_of_neg _ (by simp [hpx])] at h
      rw [List.cons_append, List.find?_cons_of_neg _ (by simp [hpx])]
      exact ih h

theorem find?_map_invariant {α : Type} {p : α → Bool} {f : α → α}
    (hfix : ∀ x, p x = true → f x = x) (hkeep : ∀ x, p x = false → p (f x) = false) :
    ∀ l : List α, (l.map f).find? p = l.find? p := by
  intro l
  induction l with
  | nil => rfl
  | cons x l ih =>
    cases hpx : p x with
    | true =>
      rw [List.map_cons, hfix x hpx, List.find?_cons_of_pos _ hpx,
        List.find?_cons_of_pos _ hpx]
    | false =>
      rw [List.map_cons, List.find?_cons_of_neg _ (by simp [hkeep x hpx]),
        List.find?_cons_of_neg _ (by simp [hpx])]
      exact ih

theorem find?_map_update {α : Type} [DecidableEq α] {p : α → Bool} {l : List α} {t t2 : α}
    (hfind : l.find? p = some t) (ht2 : p t2 = true) :
    (l.map (fun x => if x = t then t2 else x)).find? p = some t2 := by
  induction l with
  | nil => simp at hfind
  | cons x l ih =>
    cases hpx : p x with
    | true =>
      rw [List.find?_cons_of_pos _ hpx] at hfind
      have hx : x = t := by injection hfind
      subst hx
      rw [List.map_cons, if_pos rfl, List.find?_cons_of_pos _ ht2]
    | false =>
      have hxt : x ≠ t := by
        intro he
        have hpt : p t = true := List.find?_some hfind
        rw [he] at hpx
        exact absurd hpt (by simp [hpx])
      rw [List.find?_cons_of_neg _ (by simp [hpx])] at hfind
      rw [List.map_cons, if_neg hxt, List.find?_cons_of_neg _ (by simp [hpx])]
      exact ih hfind

theorem map_update_self {α : Type} [DecidableEq α] (l : List α) (t : α) :
    l.map (fun x => if x = t then t else x) = l := by
  induction l with
  | nil => rfl
  | cons a l ih =>
    rw [List.map_cons, ih]
    by_cases ha : a = t
    · rw [if_pos ha, ha]
    · rw [if_neg ha]

theorem refreshFields_eq_self {step : RoutineStep} {t : EngineTask}
    (h1 : t.title = step.title) (h2 : t.estimate_minutes = some step.duration_min) :
    refreshFields step t = t := by
  cases t
  simp_all [refreshFields]

theorem anchorPred_refreshFields (u : Nat) (k : String × String) (step : RoutineStep)
    (t : EngineTask) : anchorPred u k (refreshFields step t) = anchorPred u k t := by
  simp [anchorPred, refreshFields]

theorem upsertAnchor_first (u : Nat) (day : String) (dayStart : Int) (st : AnchorStore)
    (step : RoutineStep) :
    (upsertAnchor u day dayStart st step).1.tasks.find?
      (anchorPred u (step.step_id, day)) = some (upsertAnchor u day dayStart st step).2 ∧
    (upsertAnchor u day dayStart st step).2.title = step.title ∧
    (upsertAnchor u day dayStart st step).2.estimate_minutes = some step.duration_min := by
  unfold upsertAnchor
  cases hf : st.tasks.find? (anchorPred u (step.step_id, day)) with
  | some t =>
    dsimp only
    refine ⟨?_, by simp [refreshFields], by simp [refreshFields]⟩
    have ht : anchorPred u (step.step_id, day) t = true := List.find?_some hf
    exact find?_map_update hf (by rw [anchorPred_refreshFields]; exact ht)
  | none =>
    dsimp only
    refine ⟨?_, by simp [newAnchor], by simp [newAnchor]⟩
    rw [find?_append_of_none hf]
    rw [List.find?_cons_of_pos _ (by simp [anchorPred, newAnchor])]

theorem upsertAnchor_noop (u : Nat) (day : String) (dayStart : Int) (st : AnchorStore)
    (step : RoutineStep) (t : EngineTask)
    (hfind : st.tasks.find? (anchorPred u (step.step_id, day)) = some t)
    (h1 : t.title = step.title) (h2 : t.estimate_minutes = some step.duration_min) :
    upsertAnchor u day dayStart st step = (st, t) := by
  have hre : refreshFields step t = t := refreshFields_eq_self h1 h2
  unfold upsertAnchor
  rw [hfind]
  dsimp only
  rw [hre, map_update_self]

theorem upsertAnchor_preserves {u : Nat} {day : String} {dayStart : Int} {st : AnchorStore}
    {step2 : RoutineStep} {k : String × String} {t : EngineTask}
    (hne : k ≠ (step2.step_id, day))
    (hfind : st.tasks.find? (anchorPred u k) = some t) :
    (upsertAnchor u day dayStart st step2).1.tasks.find? (anchorPred u k) = some t := by
  unfold upsertAnchor
  cases hf2 : st.tasks.find? (anchorPred u (step2.step_id, day)) with
  | some t2 =>
    dsimp only
    have ht2key : t2.anchor_key = some (step2.step_id, day) := by
      have hp := List.find?_some hf2
      simp [anchorPred] at hp
      exact hp.2
    have hfix : ∀ x, anchorPred u k x = true →
        (if x = t2 then refreshFields step2 t2 else x) = x := by
      intro x hx
      have hxkey : x.anchor_key = some k := by
        simp [anchorPred] at hx
        exact hx.2
      have hxne : x ≠ t2 := by
        intro he
        rw [he, ht2key] at hxkey
        exact hne (by injection hxkey with h3; exact h3.symm)
      rw [if_neg hxne]
    have hkeep : ∀ x, anchorPred u k x = false →
        anchorPred u k (if x = t2 then refreshFields step2 t2 else x) = false := by
      intro x hx
      by_cases he : x = t2
      · rw [if_pos he, anchorPred_refreshFields, ← he]
        exact hx
      · rw [if_neg he]
        exact hx
    rw [find?_map_invariant hfix hkeep st.tasks]
    exact hfind
  | none =>
    dsimp only
    rw [find?_append_of_some hfind]

theorem ensureAnchors_preserves_find (u : Nat) (day : String) (dayStart : Int)
    (k : String × String) (t : EngineTask) :
    ∀ (cfg : List RoutineStep) (st : AnchorStore),
      (∀ s ∈ cfg, k ≠ (s.step_id, day)) →
      st.tasks.find? (anchorPred u k) = some t →
      (ensureAnchors u day dayStart cfg st).1.tasks.find? (anchorPred u k) = some t := by
  intro cfg
  induction cfg with
  | nil => intro st _ h; exact h
  | cons s rest ih =>
    intro st hne h
    show (ensureAnchors u day dayStart rest
      (upsertAnchor u day dayStart st s).1).1.tasks.find? (anchorPred u k) = some t
    exact ih _ (fun x hx => hne x (List.mem_cons_of_mem _ hx))
      (upsertAnchor_preserves (hne s (List.mem_cons_self _ _)) h)

theorem ensureAnchors_idem_aux (u : Nat) (day : String) (dayStart : Int) :
    ∀ (cfg : List RoutineStep) (st : AnchorStore),
      (cfg.map RoutineStep.step_id).Nodup →
      ensureAnchors u day dayStart cfg (ensureAnchors u day dayStart cfg st).1 =
        ensureAnchors u day dayStart cfg st := by
  intro cfg
  induction cfg with
  | nil => intro st _; rfl
  | cons step rest ih =>
    intro st hnd
    rw [List.map_cons, List.nodup_cons] at hnd
    obtain ⟨hhead, hrest⟩ := hnd
    obtain ⟨hfind1, htitle, hest⟩ := upsertAnchor_first u day dayStart st step
    have hkeysne : ∀ s ∈ rest, (step.step_id, day) ≠ (s.step_id, day) := by
      intro s hs he
      apply hhead
      have hsid : step.step_id = s.step_id := by
        injection he with h3
      rw [hsid]
      exact List.mem_map_of_mem _ hs
    have hfind2 := ensureAnchors_preserves_find u day dayStart (step.step_id, day)
      (upsertAnchor u day dayStart st step).2 rest
      (upsertAnchor u day dayStart st step).1 hkeysne hfind1
    have hnoop := upsertAnchor_noop u day dayStart
      (ensureAnchors u day dayStart rest (upsertAnchor u day dayStart st step).1).1 step
      (upsertAnchor u day dayStart st step).2 hfind2 htitle hest
    have hcons : ∀ st' : AnchorStore, ensureAnchors u day dayStart (step :: rest) st' =
        ((ensureAnchors u day dayStart rest (upsertAnchor u day dayStart st' step).1).1,
          (upsertAnchor u day dayStart st' step).2 ::
            (ensureAnchors u day dayStart rest
              (upsertAnchor u day dayStart st' step).1).2) := fun st' => rfl
    rw [hcons st]
    dsimp only
    rw [hcons ((ensureAnchors u day dayStart rest (upsertAnchor u day dayStart st step).1).1)]
    rw [hnoop]
    dsimp only
    rw [ih (upsertAnchor u day dayStart st step).1 hrest]

/-- C1: the Anchor Resolver is idempotent: calling ensureAnchors a
second time for the same user, day and routine config returns exactly
the same store and the same anchor task list — same ids and same
planned_start/planned_end — inserting no duplicate rows; the repeated
call is a no-op on placements. Assumes the config's step ids are
distinct, as the per-user Routine Config guarantees. -/
theorem c1_ensureAnchors_idempotent (u : Nat) (day : String) (dayStart : Int)
    (cfg : List RoutineStep) (st : AnchorStore)
    (hids : (cfg.map RoutineStep.step_id).Nodup) :
    ensureAnchors u day dayStart cfg (ensureAnchors u day dayStart cfg st).1 =
      ensureAnchors u day dayStart cfg st :=
  ensureAnchors_idem_aux u day dayStart cfg st hids

/-- Witness for C1: a two-step routine on an empty store. -/
theorem c1_ensureAnchors_idempotent_witness :
    ensureAnchors 1 "2025-01-06" 0
      [RoutineStep.mk "wake" 420 30 "Morning routine", RoutineStep.mk "bf" 450 30 "Breakfast"]
      (ensureAnchors 1 "2025-01-06" 0
        [RoutineStep.mk "wake" 420 30 "Morning routine", RoutineStep.mk "bf" 450 30 "Breakfast"]
        (AnchorStore.mk [] 0)).1 =
    ensureAnchors 1 "2025-01-06" 0
      [RoutineStep.mk "wake" 420 30 "Morning routine", RoutineStep.mk "bf" 450 30 "Breakfast"]
      (AnchorStore.mk [] 0) :=
  c1_ensureAnchors_idempotent 1 "2025-01-06" 0
    [RoutineStep.mk "wake" 420 30 "Morning routine", RoutineStep.mk "bf" 450 30 "Breakfast"]
    (AnchorStore.mk [] 0) (by decide)

/-- Witness for the amended C10 at 2024-02-29 07:05. -/
theorem c10_parse_format_roundtrip_witness :
    parseLocalDateTime (dateStrOf 2024 2 29) (timeStrOf 7 5) =
      some (LocalDate.mk ((2024 : Nat) : Int) (((2 : Nat) : Int) - 1) ((29 : Nat) : Int)
        ((7 : Nat) : Int) ((5 : Nat) : Int)) ∧
    formatDateInput (LocalDate.mk ((2024 : Nat) : Int) (((2 : Nat) : Int) - 1)
      ((29 : Nat) : Int) ((7 : Nat) : Int) ((5 : Nat) : Int)) = dateStrOf 2024 2 29 ∧
    toLocalIsoString (LocalDate.mk ((2024 : Nat) : Int) (((2 : Nat) : Int) - 1)
      ((29 : Nat) : Int) ((7 : Nat) : Int) ((5 : Nat) : Int)) =
      dateStrOf 2024 2 29 ++ 'T' :: (timeStrOf 7 5 ++ [':', '0', '0']) :=
  c10_parse_format_roundtrip 2024 2 29 7 5 (by decide) (by decide) (by decide)
    (by decide) (by decide) (by decide) (by decide) (by decide)

end DayPlanner
